import Mathlib

/-!
# nats-prometheus: the exporter loop of `main.go`

A shallow embedding of `main.go` (package `main`): the flag check and startup probe of
`main`, and the polling loop `consume`, which adds the numbers of each decoded `/varz`
body to two Prometheus counter vectors and stores two of them in gauges.

Conventions of the embedding.

* A Go `float64` is a value of `F64`.  A finite float64 is an integer multiple of
  2^(-1074), so `F64.fin k` stands for the real number k * 2^(-1074); `F64.add` is the
  IEEE 754 sum (exact sum, then round to nearest, ties to even, overflow to infinity).
  Negative zero is identified with zero.
* The Prometheus client library (`github.com/prometheus/client_golang/prometheus`) is
  imported by `main.go` and is not part of the repository.  Its three operations used
  by `consume` are modelled by their documented contracts: `Counter.Add` "adds the given
  value to the counter. It panics if the value is < 0", `Gauge.Set` "sets the Gauge to
  an arbitrary value", and `CounterVec.WithLabelValues` returns the child counter of a
  label value, creating it at zero on first use.
* A panic in the goroutine running `consume` ends the process; it is the `error` case of
  `Except String`.
* `http.Get`, `client.Get` and the JSON decoder are inputs: one `GetResult` per request.
-/

set_option exponentiation.threshold 4096

namespace NatsPrometheus

/-! ## float64 -/

/-- A Go `float64`.  `fin k` is the finite value k * 2^(-1074). -/
inductive F64 where
  | fin (k : Int)
  | posInf
  | negInf
  | nan
deriving DecidableEq, Repr

/-- Auxiliary count for `dropBits`: halve `n` until it is below 2^53. -/
def excessBits : Nat → Nat → Nat
  | 0, _ => 0
  | fuel + 1, n => if n < 2 ^ 53 then 0 else excessBits fuel (n / 2) + 1

/-- Number of low-order bits of `n` that do not fit in a 53-bit significand
(0 when `n < 2^53`).  The fuel `n` always suffices. -/
def dropBits (n : Nat) : Nat := excessBits n n

/-- Round a magnitude to a 53-bit significand: to nearest, ties to even. -/
def roundMag (n : Nat) : Nat :=
  let s := dropBits n
  let q := n / 2 ^ s
  let r := n % 2 ^ s
  if 2 * r < 2 ^ s then q * 2 ^ s
  else if 2 ^ s < 2 * r then (q + 1) * 2 ^ s
  else if q % 2 = 0 then q * 2 ^ s
  else (q + 1) * 2 ^ s

/-- The float64 nearest to the real number k * 2^(-1074).  A rounded magnitude of
2^1024 or more (2^2098 units) overflows to an infinity. -/
def fround (k : Int) : F64 :=
  let m := roundMag k.natAbs
  if 2 ^ 2098 ≤ m then (if k < 0 then F64.negInf else F64.posInf)
  else F64.fin (if k < 0 then -(m : Int) else m)

namespace F64

/-- Go `x + y` on float64. -/
def add : F64 → F64 → F64
  | nan, _ => nan
  | _, nan => nan
  | posInf, negInf => nan
  | negInf, posInf => nan
  | posInf, _ => posInf
  | _, posInf => posInf
  | negInf, _ => negInf
  | _, negInf => negInf
  | fin a, fin b => fround (a + b)

/-- Go `v < 0` on float64 (false for NaN). -/
def ltZero : F64 → Bool
  | fin k => decide (k < 0)
  | negInf => true
  | _ => false

/-- Go `x <= y` on float64 (false when either side is NaN). -/
def le : F64 → F64 → Bool
  | nan, _ => false
  | _, nan => false
  | negInf, _ => true
  | _, posInf => true
  | fin a, fin b => decide (a ≤ b)
  | _, _ => false

/-- The float64 with value m / 2^e (for a representable value: 53-bit `m`, `e ≤ 1074`). -/
def dyadic (m : Int) (e : Nat) : F64 := fin (m * ((2 ^ (1074 - e) : Nat) : Int))

/-- The float64 with the integer value `n` (for a representable `n`, such as any
`n ≤ 2^53`). -/
def nat (n : Nat) : F64 := fin ((n * 2 ^ 1074 : Nat) : Int)

/-- Integer part of a non-negative finite float64 (0 otherwise). -/
def toNat : F64 → Nat
  | fin k => k.toNat / 2 ^ 1074
  | _ => 0

/-- The value is a non-negative integer. -/
def IsNat (v : F64) : Prop := v = nat v.toNat

instance (v : F64) : Decidable v.IsNat := by unfold IsNat; infer_instance

/-- The value is not negative and not NaN: what the data model calls non-negative. -/
def nonneg : F64 → Bool
  | fin k => decide (0 ≤ k)
  | posInf => true
  | _ => false

end F64

/-- The significand of the magnitude `n` fits in 53 bits, so `n` is the magnitude of a
float64 (or of an overflow). -/
def fits53 (n : Nat) : Prop := n % 2 ^ dropBits n = 0

instance (n : Nat) : Decidable (fits53 n) := by unfold fits53; infer_instance

/-- A value a counter can hold: a non-negative float64 or positive infinity. -/
def F64.counterOK : F64 → Prop
  | .fin k => 0 ≤ k ∧ fits53 k.natAbs
  | .posInf => True
  | _ => False

/-! ## Metric state: the package-level collectors of `main.go` -/

/-- A `prometheus.CounterVec` with the single label `direction`: the value of the child
counter of each label value (zero for a child not created yet). -/
def CounterVec := String → F64

/-- Message of the panic raised by `Counter.Add` on a negative argument. -/
def counterPanic : String := "counter cannot decrease in value"

/-- Effect of `cv.WithLabelValues(lv).Add(v)`: panics when `v < 0`, otherwise adds `v` to
the child counter of `lv`. -/
def CounterVec.Add (cv : CounterVec) (lv : String) (v : F64) : Except String CounterVec :=
  if v.ltZero then .error counterPanic
  else .ok (Function.update cv lv ((cv lv).add v))

/-- The four collectors `bytesCounter`, `messageCounter`, `connections`, `slowConsumers`. -/
structure MetricState where
  bytesCounter : CounterVec
  messageCounter : CounterVec
  connections : F64
  slowConsumers : F64

/-- State at process start: every counter child and both gauges read zero. -/
def MetricState.init : MetricState :=
  { bytesCounter := fun _ => .fin 0, messageCounter := fun _ => .fin 0,
    connections := .fin 0, slowConsumers := .fin 0 }

/-- The local struct `natsinfo` of `consume`, as filled by the JSON decoder. -/
structure NatsInfo where
  BytesIn : F64
  BytesOut : F64
  MessagesIn : F64
  MessagesOut : F64
  SlowConsumers : F64
  Connections : F64
  MaxConnections : F64
deriving DecidableEq, Repr

/-- The four counter fields are non-negative, as the data model of the specification
requires of a snapshot. -/
def NatsInfo.countersNonneg (s : NatsInfo) : Bool :=
  s.BytesIn.nonneg && s.BytesOut.nonneg && s.MessagesIn.nonneg && s.MessagesOut.nonneg

/-- What the program reads of an HTTP response: the status code and the result of
decoding the body into `natsinfo`. -/
structure Response where
  StatusCode : Int
  decoded : Except String NatsInfo

/-- Result of one GET: a transport error or a response. -/
abbrev GetResult := Except String Response

/-! ## `consume` -/

/-- Lines 117-124 of `consume`: four `Add` calls and two `Set` calls, in order. -/
def reconcile (st : MetricState) (natsinfo : NatsInfo) : Except String MetricState := do
  let bc ← st.bytesCounter.Add "in" natsinfo.BytesIn
  let bc ← bc.Add "out" natsinfo.BytesOut
  let mc ← st.messageCounter.Add "in" natsinfo.MessagesIn
  let mc ← mc.Add "out" natsinfo.MessagesOut
  pure { bytesCounter := bc, messageCounter := mc,
         connections := natsinfo.Connections, slowConsumers := natsinfo.SlowConsumers }

/-- One pass through the body of the loop of `consume` after the sleep, given the result
of `client.Get`.  The three `continue` branches (after logging) keep the state. -/
def consumeIter (st : MetricState) (get : GetResult) : Except String MetricState :=
  match get with
  | .error _ => .ok st
  | .ok resp =>
    if resp.StatusCode ≠ 200 then .ok st
    else
      match resp.decoded with
      | .error _ => .ok st
      | .ok natsinfo => reconcile st natsinfo

/-- The first passes of the loop of `consume`, one per element of `gets`. -/
def consumeLoop (st : MetricState) : List GetResult → Except String MetricState
  | [] => .ok st
  | g :: gs =>
    match consumeIter st g with
    | .ok st1 => consumeLoop st1 gs
    | .error e => .error e

/-- The snapshot reconciled by a pass, if the fetch succeeded: no transport error,
status 200 and a decodable body. -/
def fetched : GetResult → Option NatsInfo
  | .ok resp =>
    if resp.StatusCode ≠ 200 then none
    else match resp.decoded with
      | .ok natsinfo => some natsinfo
      | .error _ => none
  | .error _ => none

/-- A successful fetch carrying the snapshot `s`. -/
def okGet (s : NatsInfo) : GetResult := .ok { StatusCode := 200, decoded := .ok s }

/-- The snapshot of the last successful fetch of a sequence of passes. -/
def lastFetched (gets : List GetResult) : Option NatsInfo :=
  (gets.filterMap fetched).getLast?

/-- Every snapshot fetched in the sequence has non-negative counter fields. -/
def allCountersNonneg (gets : List GetResult) : Bool :=
  gets.all fun g =>
    match fetched g with
    | some s => s.countersNonneg
    | none => true

/-- Every child counter of both vectors holds a counter value. -/
def MetricState.countersOK (st : MetricState) : Prop :=
  ∀ lv, (st.bytesCounter lv).counterOK ∧ (st.messageCounter lv).counterOK

/-- Sum over the snapshots of the integer value of one field. -/
def sumOf (f : NatsInfo → F64) (snaps : List NatsInfo) : Nat :=
  (snaps.map (fun s => (f s).toNat)).sum

/-- The four counter fields of a snapshot are non-negative integers. -/
def NatsInfo.countersNat (s : NatsInfo) : Prop :=
  s.BytesIn.IsNat ∧ s.BytesOut.IsNat ∧ s.MessagesIn.IsNat ∧ s.MessagesOut.IsNat

instance (s : NatsInfo) : Decidable s.countersNat := by
  unfold NatsInfo.countersNat; infer_instance

/-- Where the goroutine of `consume` is: asleep in `time.Sleep` (idle), between the
sleep and the end of the loop body (polling), or ended by a panic. -/
inductive Sched where
  | idle (st : MetricState)
  | polling (st : MetricState)
  | crashed (msg : String)

/-- What the goroutine waits for: the end of the sleep, or the result of the GET. -/
inductive Event where
  | tick
  | got (g : GetResult)

/-- Steps of the loop of `consume`: the sleep ends (idle to polling), or the rest of the
loop body runs on the result of the GET (polling to idle, or to a crash when an `Add`
panics).  No other step exists. -/
def Sched.step : Sched → Event → Option Sched
  | .idle st, .tick => some (.polling st)
  | .polling st, .got g =>
    match consumeIter st g with
    | .ok st1 => some (.idle st1)
    | .error msg => some (.crashed msg)
  | _, _ => none

/-! ## Durations -/

/-- Two-complement wrap into the range of `int64`. -/
def wrapInt64 (x : Int) : Int := (x + 2 ^ 63) % 2 ^ 64 - 2 ^ 63

/-- Constant `time.Second`, in nanoseconds. -/
def Second : Int := 1000000000

/-- Go `a * b` on `time.Duration` (an `int64`). -/
def Duration.mul (a b : Int) : Int := wrapInt64 (a * b)

/-- Go `time.Duration(n)` for an `int` (64 bits wide). -/
def toDuration (n : Int) : Int := wrapInt64 n

/-- Argument of `time.Sleep` at line 80, in nanoseconds. -/
def sleepDuration (consumeTime : Int) : Int := Duration.mul Second (toDuration consumeTime)

/-- Field `Timeout` of the client built at lines 81-83, in nanoseconds. -/
def clientTimeout (consumeTime : Int) : Int := Duration.mul Second (toDuration consumeTime)

/-! ## `main` -/

/-- The three flags. -/
structure Flags where
  addr : String
  natsaddr : String
  consumeTime : Int

/-- Observable actions of `main`. -/
inductive Action where
  | logFatal (msg : String)
  | httpGet (url : String)
  | closeBody
  | mustRegister (collector : String)
  | goConsume
  | handle (pattern : String)
  | listenAndServe (addr : String)
deriving DecidableEq, Repr

/-- Value of `fmt.Sprintf("http://%s/varz", natsaddr)`. -/
def varzURL (natsaddr : String) : String := "http://" ++ natsaddr ++ "/varz"

/-- The actions of `main`, in order, given the result `probe` of its `http.Get` and the
error `serveErr` returned by `http.ListenAndServe` (`none` while it keeps serving).
`log.Fatal` ends the process, so nothing follows it. -/
def main (flags : Flags) (probe : GetResult) (serveErr : Option String) : List Action :=
  if flags.consumeTime < 1 then [.logFatal "consume time should be >0"]
  else
    .httpGet (varzURL flags.natsaddr) ::
    match probe with
    | .error err => [.logFatal err]
    | .ok resp =>
      if resp.StatusCode ≠ 200 then
        [.logFatal ("expected statuscode 200 got " ++ toString resp.StatusCode)]
      else
        [.closeBody, .mustRegister "bytesCounter", .mustRegister "messageCounter",
         .mustRegister "connections", .mustRegister "slowConsumers", .goConsume,
         .handle "/metrics", .listenAndServe flags.addr] ++
        match serveErr with
        | some err => [.logFatal err]
        | none => []


/-! ## Sample inputs -/

/-- The snapshot of the scenario of the specification; `max_connections` is absent from
it and decodes to zero. -/
def scenario : NatsInfo :=
  { BytesIn := F64.nat 100, BytesOut := F64.nat 50, MessagesIn := F64.nat 10,
    MessagesOut := F64.nat 5, SlowConsumers := F64.nat 0, Connections := F64.nat 3,
    MaxConnections := F64.nat 0 }

/-- A snapshot with `in_bytes` equal to `v` and every other field zero. -/
def bytesInOnly (v : F64) : NatsInfo :=
  { BytesIn := v, BytesOut := F64.nat 0, MessagesIn := F64.nat 0, MessagesOut := F64.nat 0,
    SlowConsumers := F64.nat 0, Connections := F64.nat 0, MaxConnections := F64.nat 0 }

/-- A snapshot with non-negative counter fields and negative gauge fields. -/
def negativeGauges : NatsInfo :=
  { BytesIn := F64.nat 1, BytesOut := F64.nat 2, MessagesIn := F64.nat 3,
    MessagesOut := F64.nat 4, SlowConsumers := F64.dyadic (-1) 0,
    Connections := F64.dyadic (-3) 0, MaxConnections := F64.nat 0 }

/-- The float64 4503599627370495.5, that is 2^52 - 1/2. -/
def nearTwo52 : F64 := F64.dyadic (2 ^ 53 - 1) 1

/-- The float64 0.75. -/
def threeQuarters : F64 := F64.dyadic 3 2

/-- The float64 0.5. -/
def oneHalf : F64 := F64.dyadic 1 1

/-- The float64 1.25. -/
def fiveQuarters : F64 := F64.dyadic 5 2

/-- A response with status 503. -/
def unavailable : Response := { StatusCode := 503, decoded := .error "EOF" }

/-- A response with status 200 and a body that is not JSON. -/
def malformed : Response := { StatusCode := 200, decoded := .error "invalid character" }

/-- Flags at their default values. -/
def defaultFlags : Flags := { addr := ":9104", natsaddr := ":8043", consumeTime := 10 }

/-! ## Rounding lemmas -/

theorem excessBits_spec (fuel : Nat) : ∀ n : Nat, n ≤ fuel →
    n < 2 ^ (53 + excessBits fuel n) ∧
      (excessBits fuel n = 0 ∨ 2 ^ (52 + excessBits fuel n) ≤ n) := by
  induction fuel with
  | zero =>
    intro n hn
    have : n = 0 := by omega
    subst this
    simp [excessBits]
  | succ fuel ih =>
    intro n hn
    unfold excessBits
    by_cases hlt : n < 2 ^ 53
    · rw [if_pos hlt]
      exact ⟨by simpa using hlt, Or.inl rfl⟩
    · rw [if_neg hlt]
      have hn2 : n / 2 ≤ fuel := by omega
      obtain ⟨h1, h2⟩ := ih (n / 2) hn2
      generalize excessBits fuel (n / 2) = s at h1 h2 ⊢
      have e1 : 2 ^ (53 + (s + 1)) = 2 * 2 ^ (53 + s) := by ring
      have e2 : 2 ^ (52 + (s + 1)) = 2 * 2 ^ (52 + s) := by ring
      refine ⟨by rw [e1]; omega, Or.inr ?_⟩
      rw [e2]
      rcases h2 with h2 | h2
      · subst h2
        simp only [add_zero] at *
        omega
      · omega

theorem dropBits_lt (n : Nat) : n < 2 ^ (53 + dropBits n) :=
  (excessBits_spec n n le_rfl).1

theorem dropBits_le (n : Nat) : dropBits n = 0 ∨ 2 ^ (52 + dropBits n) ≤ n :=
  (excessBits_spec n n le_rfl).2

/-- The two bounds determine `dropBits`. -/
theorem dropBits_eq {n s : Nat} (h1 : 2 ^ (52 + s) ≤ n) (h2 : n < 2 ^ (53 + s)) (hs : 0 < s) :
    dropBits n = s := by
  have a := dropBits_lt n
  have b := dropBits_le n
  by_contra hne
  rcases Nat.lt_or_gt_of_ne hne with hlt | hgt
  · have : 2 ^ (53 + dropBits n) ≤ 2 ^ (52 + s) :=
      Nat.pow_le_pow_right (by norm_num) (by omega)
    omega
  · rcases b with b | b
    · omega
    · have : 2 ^ (53 + s) ≤ 2 ^ (52 + dropBits n) :=
        Nat.pow_le_pow_right (by norm_num) (by omega)
      omega

theorem fits53_of_dvd {n : Nat} (h : 2 ^ dropBits n ∣ n) : fits53 n := by
  unfold fits53
  exact Nat.mod_eq_zero_of_dvd h

theorem dvd_of_fits53 {n : Nat} (h : fits53 n) : 2 ^ dropBits n ∣ n :=
  Nat.dvd_of_mod_eq_zero h

/-- A magnitude m * 2^j with m of at most 53 bits (or m = 2^53) is representable. -/
theorem fits53_mul_pow {m : Nat} (j : Nat) (hm : m ≤ 2 ^ 53) : fits53 (m * 2 ^ j) := by
  apply fits53_of_dvd
  have hle : m * 2 ^ j ≤ 2 ^ (53 + j) := by
    rw [pow_add]; exact Nat.mul_le_mul_right _ hm
  rcases dropBits_le (m * 2 ^ j) with b | b
  · rw [b]; simp
  · rcases Nat.lt_or_ge m (2 ^ 53) with hlt | hge
    · have hlt2 : m * 2 ^ j < 2 ^ (53 + j) := by
        rw [pow_add]; exact Nat.mul_lt_mul_of_pos_right hlt (by positivity)
      have ht : dropBits (m * 2 ^ j) ≤ j := by
        by_contra hne
        have : 2 ^ (53 + j) ≤ 2 ^ (52 + dropBits (m * 2 ^ j)) :=
          Nat.pow_le_pow_right (by norm_num) (by omega)
        omega
      exact Dvd.dvd.mul_left (pow_dvd_pow 2 ht) m
    · have hm2 : m = 2 ^ 53 := le_antisymm hm hge
      have ht : dropBits (m * 2 ^ j) ≤ 53 + j := by
        by_contra hne
        have : 2 ^ (53 + j + 1) ≤ 2 ^ (52 + dropBits (m * 2 ^ j)) :=
          Nat.pow_le_pow_right (by norm_num) (by omega)
        have : 2 ^ (53 + j) < 2 ^ (53 + j + 1) :=
          Nat.pow_lt_pow_right (by norm_num) (by omega)
        omega
      have e : m * 2 ^ j = 2 ^ (53 + j) := by rw [hm2, pow_add]
      rw [e]
      exact pow_dvd_pow 2 (e ▸ ht)

theorem roundMag_of_fits {n : Nat} (h : fits53 n) : roundMag n = n := by
  have hd := dvd_of_fits53 h
  unfold fits53 at h
  unfold roundMag
  simp only [h, Nat.mul_zero]
  rw [if_pos (by positivity)]
  exact Nat.div_mul_cancel hd

theorem roundMag_cases (n : Nat) :
    roundMag n = n / 2 ^ dropBits n * 2 ^ dropBits n ∨
      roundMag n = (n / 2 ^ dropBits n + 1) * 2 ^ dropBits n := by
  unfold roundMag
  simp only
  split_ifs <;> simp

theorem quot_lt (n : Nat) : n / 2 ^ dropBits n < 2 ^ 53 := by
  rw [Nat.div_lt_iff_lt_mul (by positivity), ← pow_add]
  exact dropBits_lt n

theorem fits53_roundMag (n : Nat) : fits53 (roundMag n) := by
  have hq := quot_lt n
  rcases roundMag_cases n with h | h <;> rw [h]
  · exact fits53_mul_pow _ (by omega)
  · exact fits53_mul_pow _ (by omega)

theorem floor_le_roundMag (n : Nat) : n / 2 ^ dropBits n * 2 ^ dropBits n ≤ roundMag n := by
  rcases roundMag_cases n with h | h <;> rw [h]
  exact Nat.mul_le_mul_right _ (by omega)

/-- Rounding never goes below a representable magnitude that the exact value reaches. -/
theorem le_roundMag {x n : Nat} (hx : fits53 x) (hxn : x ≤ n) : x ≤ roundMag n := by
  refine le_trans ?_ (floor_le_roundMag n)
  rcases dropBits_le n with b | b
  · rw [b]; simpa using hxn
  · by_cases hd : 2 ^ dropBits n ∣ x
    · obtain ⟨c, hc⟩ := hd
      have hpos : 0 < 2 ^ dropBits n := by positivity
      have : c ≤ n / 2 ^ dropBits n := by
        rw [Nat.le_div_iff_mul_le hpos]
        rw [hc, Nat.mul_comm] at hxn
        exact hxn
      rw [hc, Nat.mul_comm]
      exact Nat.mul_le_mul_right _ this
    · have hxlt : x < 2 ^ (52 + dropBits n) := by
        by_contra hge
        apply hd
        have hx1 := dropBits_lt x
        have ht : dropBits n ≤ dropBits x := by
          by_contra hne
          have : 2 ^ (53 + dropBits x) ≤ 2 ^ (52 + dropBits n) :=
            Nat.pow_le_pow_right (by norm_num) (by omega)
          omega
        exact dvd_trans (pow_dvd_pow 2 ht) (dvd_of_fits53 hx)
      have hq : 2 ^ 52 ≤ n / 2 ^ dropBits n := by
        rw [Nat.le_div_iff_mul_le (by positivity), ← pow_add]
        exact b
      have : 2 ^ (52 + dropBits n) ≤ n / 2 ^ dropBits n * 2 ^ dropBits n := by
        rw [pow_add]
        exact Nat.mul_le_mul_right _ hq
      omega

/-! ## float64 addition lemmas -/

theorem fround_of_fits {k : Int} (h0 : 0 ≤ k) (hf : fits53 k.natAbs)
    (hlt : k.natAbs < 2 ^ 2098) : fround k = .fin k := by
  unfold fround
  simp only [roundMag_of_fits hf]
  rw [if_neg (by omega), if_neg (not_lt.2 h0), Int.natAbs_of_nonneg h0]

/-- Integers up to 2^53 are added exactly. -/
theorem F64.add_nat {a b : Nat} (h : a + b ≤ 2 ^ 53) :
    (F64.nat a).add (F64.nat b) = F64.nat (a + b) := by
  have e : ((a * 2 ^ 1074 : Nat) : Int) + ((b * 2 ^ 1074 : Nat) : Int)
      = (((a + b) * 2 ^ 1074 : Nat) : Int) := by
    push_cast; ring
  unfold F64.nat
  simp only [F64.add]
  rw [e]
  apply fround_of_fits
  · exact Int.ofNat_nonneg _
  · rw [Int.natAbs_ofNat]; exact fits53_mul_pow _ h
  · rw [Int.natAbs_ofNat]
    calc (a + b) * 2 ^ 1074 ≤ 2 ^ 53 * 2 ^ 1074 := Nat.mul_le_mul_right _ h
      _ < 2 ^ 2098 := by
        rw [← pow_add]; exact Nat.pow_lt_pow_right (by norm_num) (by norm_num)

theorem F64.ltZero_of_nonneg {v : F64} (h : v.nonneg = true) : v.ltZero = false := by
  cases v <;> simp_all [F64.nonneg, F64.ltZero]

/-- Adding a non-negative value to a counter value gives a counter value that is not
smaller. -/
theorem F64.add_counter {c v : F64} (hc : c.counterOK) (hv : v.nonneg = true) :
    (c.add v).counterOK ∧ c.le (c.add v) = true := by
  cases c with
  | nan => exact absurd hc (by simp [F64.counterOK])
  | negInf => exact absurd hc (by simp [F64.counterOK])
  | posInf => cases v <;> simp_all [F64.nonneg, F64.add, F64.counterOK, F64.le]
  | fin a =>
    cases v with
    | nan => simp [F64.nonneg] at hv
    | negInf => simp [F64.nonneg] at hv
    | posInf => simp [F64.add, F64.counterOK, F64.le]
    | fin b =>
      simp only [F64.nonneg, decide_eq_true_eq] at hv
      obtain ⟨ha, hfa⟩ := hc
      have hle : a.natAbs ≤ roundMag (a + b).natAbs := le_roundMag hfa (by omega)
      have hfit := fits53_roundMag (a + b).natAbs
      have hneg : ¬ (a + b < 0) := by omega
      simp only [F64.add, fround, hneg, if_false]
      split_ifs with hov
      · simp [F64.counterOK, F64.le]
      · refine ⟨⟨Int.ofNat_nonneg _, by simpa using hfit⟩, ?_⟩
        simp only [F64.le, decide_eq_true_eq]
        omega

/-! ## Lemmas on one pass of the loop -/

theorem consumeIter_of_fetched {g : GetResult} {s : NatsInfo} (st : MetricState)
    (h : fetched g = some s) : consumeIter st g = reconcile st s := by
  unfold fetched at h
  unfold consumeIter
  cases g with
  | error e => simp at h
  | ok resp =>
    simp only at h ⊢
    by_cases hc : resp.StatusCode ≠ 200
    · simp [hc] at h
    · rw [if_neg hc] at h ⊢
      cases hd : resp.decoded with
      | error e => simp [hd] at h
      | ok info =>
        simp only [hd, Option.some.injEq] at h ⊢
        rw [h]

theorem consumeIter_of_not_fetched {g : GetResult} (st : MetricState)
    (h : fetched g = none) : consumeIter st g = .ok st := by
  unfold fetched at h
  unfold consumeIter
  cases g with
  | error e => rfl
  | ok resp =>
    simp only at h ⊢
    by_cases hc : resp.StatusCode ≠ 200
    · rw [if_pos hc]
    · rw [if_neg hc] at h ⊢
      cases hd : resp.decoded with
      | error e => rfl
      | ok info => simp [hd] at h

theorem reconcile_ok (st : MetricState) (s : NatsInfo)
    (h1 : s.BytesIn.ltZero = false) (h2 : s.BytesOut.ltZero = false)
    (h3 : s.MessagesIn.ltZero = false) (h4 : s.MessagesOut.ltZero = false) :
    reconcile st s = .ok
      { bytesCounter :=
          Function.update
            (Function.update st.bytesCounter "in" ((st.bytesCounter "in").add s.BytesIn))
            "out" ((st.bytesCounter "out").add s.BytesOut),
        messageCounter :=
          Function.update
            (Function.update st.messageCounter "in" ((st.messageCounter "in").add s.MessagesIn))
            "out" ((st.messageCounter "out").add s.MessagesOut),
        connections := s.Connections,
        slowConsumers := s.SlowConsumers } := by
  have hne : ("out" : String) ≠ "in" := by decide
  simp [reconcile, CounterVec.Add, h1, h2, h3, h4, bind, Except.bind, pure, Except.pure,
    Function.update_noteq hne]

theorem reconcile_panic (st : MetricState) (s : NatsInfo)
    (h : s.BytesIn.ltZero = true ∨ s.BytesOut.ltZero = true ∨
      s.MessagesIn.ltZero = true ∨ s.MessagesOut.ltZero = true) :
    reconcile st s = .error counterPanic := by
  cases h1 : s.BytesIn.ltZero <;> cases h2 : s.BytesOut.ltZero <;>
    cases h3 : s.MessagesIn.ltZero <;> cases h4 : s.MessagesOut.ltZero <;>
    simp_all [reconcile, CounterVec.Add, bind, Except.bind, pure, Except.pure]

/-- The values read after a completed `reconcile`. -/
theorem reconcile_fields {st st1 : MetricState} {s : NatsInfo} (h : reconcile st s = .ok st1) :
    st1.bytesCounter "in" = (st.bytesCounter "in").add s.BytesIn ∧
    st1.bytesCounter "out" = (st.bytesCounter "out").add s.BytesOut ∧
    st1.messageCounter "in" = (st.messageCounter "in").add s.MessagesIn ∧
    st1.messageCounter "out" = (st.messageCounter "out").add s.MessagesOut ∧
    st1.connections = s.Connections ∧
    st1.slowConsumers = s.SlowConsumers := by
  have hne : ("in" : String) ≠ "out" := by decide
  cases h1 : s.BytesIn.ltZero
  · cases h2 : s.BytesOut.ltZero
    · cases h3 : s.MessagesIn.ltZero
      · cases h4 : s.MessagesOut.ltZero
        · rw [reconcile_ok st s h1 h2 h3 h4] at h
          injection h with h
          subst h
          simp [Function.update_noteq hne]
        · rw [reconcile_panic st s (by simp [h4])] at h; cases h
      · rw [reconcile_panic st s (by simp [h3])] at h; cases h
    · rw [reconcile_panic st s (by simp [h2])] at h; cases h
  · rw [reconcile_panic st s (by simp [h1])] at h; cases h

theorem reconcile_ok_iff (st : MetricState) (s : NatsInfo) :
    (∃ st1, reconcile st s = .ok st1) ↔
      (s.BytesIn.ltZero = false ∧ s.BytesOut.ltZero = false ∧
        s.MessagesIn.ltZero = false ∧ s.MessagesOut.ltZero = false) := by
  constructor
  · rintro ⟨st1, h⟩
    by_contra hne
    have hp : s.BytesIn.ltZero = true ∨ s.BytesOut.ltZero = true ∨
        s.MessagesIn.ltZero = true ∨ s.MessagesOut.ltZero = true := by
      cases h1 : s.BytesIn.ltZero <;> cases h2 : s.BytesOut.ltZero <;>
        cases h3 : s.MessagesIn.ltZero <;> cases h4 : s.MessagesOut.ltZero <;>
        simp_all
    rw [reconcile_panic st s hp] at h
    cases h
  · rintro ⟨h1, h2, h3, h4⟩
    exact ⟨_, reconcile_ok st s h1 h2 h3 h4⟩

theorem reconcile_of_nonneg (st : MetricState) (s : NatsInfo) (h : s.countersNonneg = true) :
    ∃ st1, reconcile st s = .ok st1 := by
  simp only [NatsInfo.countersNonneg, Bool.and_eq_true] at h
  obtain ⟨⟨⟨h1, h2⟩, h3⟩, h4⟩ := h
  exact ⟨_, reconcile_ok st s (F64.ltZero_of_nonneg h1) (F64.ltZero_of_nonneg h2)
    (F64.ltZero_of_nonneg h3) (F64.ltZero_of_nonneg h4)⟩

/-! ## Lemmas on sequences of passes -/

theorem lastFetched_cons (g : GetResult) (gs : List GetResult) :
    lastFetched (g :: gs) =
      match lastFetched gs with
      | some s => some s
      | none => fetched g := by
  unfold lastFetched
  rw [List.filterMap_cons]
  cases hg : fetched g with
  | none => cases h : (List.filterMap fetched gs).getLast? <;> simp [h]
  | some a =>
    cases h : (List.filterMap fetched gs).getLast? with
    | none =>
      have : List.filterMap fetched gs = [] := by simpa using h
      simp [this]
    | some b => simp [List.getLast?_cons, h]

theorem consumeLoop_cons_ok {st st1 : MetricState} {g : GetResult} (gs : List GetResult)
    (h : consumeIter st g = .ok st1) : consumeLoop st (g :: gs) = consumeLoop st1 gs := by
  simp [consumeLoop, h]

theorem consumeLoop_ok_cons {st st2 : MetricState} {g : GetResult} {gs : List GetResult}
    (h : consumeLoop st (g :: gs) = .ok st2) :
    ∃ st1, consumeIter st g = .ok st1 ∧ consumeLoop st1 gs = .ok st2 := by
  unfold consumeLoop at h
  cases hi : consumeIter st g with
  | error e => simp [hi] at h
  | ok st1 => exact ⟨st1, rfl, by simpa [hi] using h⟩

theorem allCountersNonneg_cons {g : GetResult} {gs : List GetResult}
    (h : allCountersNonneg (g :: gs) = true) :
    (∀ s, fetched g = some s → s.countersNonneg = true) ∧ allCountersNonneg gs = true := by
  simp only [allCountersNonneg, List.all_cons, Bool.and_eq_true] at h ⊢
  refine ⟨fun s hs => ?_, h.2⟩
  have h1 := h.1
  rw [hs] at h1
  exact h1

theorem consumeIter_of_nonneg (st : MetricState) (g : GetResult)
    (h : ∀ s, fetched g = some s → s.countersNonneg = true) :
    ∃ st1, consumeIter st g = .ok st1 := by
  cases hf : fetched g with
  | none => exact ⟨st, consumeIter_of_not_fetched st hf⟩
  | some s =>
    rw [consumeIter_of_fetched st hf]
    exact reconcile_of_nonneg st s (h s hf)

theorem consumeLoop_of_nonneg (gets : List GetResult) :
    ∀ st : MetricState, allCountersNonneg gets = true →
      ∃ st1, consumeLoop st gets = .ok st1 := by
  induction gets with
  | nil => intro st _; exact ⟨st, rfl⟩
  | cons g gs ih =>
    intro st h
    obtain ⟨hg, hgs⟩ := allCountersNonneg_cons h
    obtain ⟨st1, h1⟩ := consumeIter_of_nonneg st g hg
    obtain ⟨st2, h2⟩ := ih st1 hgs
    exact ⟨st2, by rw [consumeLoop_cons_ok _ h1]; exact h2⟩

/-- After a run that did not panic the gauges hold the values of the last fetched
snapshot; with no fetched snapshot the state is the one the run started from. -/
theorem consumeLoop_gauges (gets : List GetResult) :
    ∀ st st1 : MetricState, consumeLoop st gets = .ok st1 →
      match lastFetched gets with
      | some s => st1.connections = s.Connections ∧ st1.slowConsumers = s.SlowConsumers
      | none => st1 = st := by
  induction gets with
  | nil =>
    intro st st1 h
    simp only [consumeLoop, Except.ok.injEq] at h
    simp [lastFetched, h]
  | cons g gs ih =>
    intro st st2 h
    obtain ⟨st1, h1, h2⟩ := consumeLoop_ok_cons h
    have := ih st1 st2 h2
    rw [lastFetched_cons]
    cases hl : lastFetched gs with
    | some s => simpa [hl] using this
    | none =>
      simp only [hl] at this ⊢
      subst this
      cases hf : fetched g with
      | none =>
        rw [consumeIter_of_not_fetched st hf] at h1
        simp only [Except.ok.injEq] at h1
        simp [h1]
      | some s =>
        rw [consumeIter_of_fetched st hf] at h1
        have := reconcile_fields h1
        simp [this.2.2.2.2.1, this.2.2.2.2.2]

/-! ## Counter values stay counter values and never decrease -/

theorem F64.le_self_of_counterOK {c : F64} (h : c.counterOK) : c.le c = true := by
  cases c <;> simp_all [F64.counterOK, F64.le]

theorem update2_counter (cv : CounterVec) (v1 v2 : F64) (hcv : ∀ lv, (cv lv).counterOK)
    (h1 : v1.nonneg = true) (h2 : v2.nonneg = true) (lv : String) :
    (Function.update (Function.update cv "in" ((cv "in").add v1)) "out"
        ((cv "out").add v2) lv).counterOK ∧
      (cv lv).le (Function.update (Function.update cv "in" ((cv "in").add v1)) "out"
        ((cv "out").add v2) lv) = true := by
  by_cases ho : lv = "out"
  · subst ho
    rw [Function.update_same]
    exact F64.add_counter (hcv _) h2
  · rw [Function.update_noteq ho]
    by_cases hi : lv = "in"
    · subst hi
      rw [Function.update_same]
      exact F64.add_counter (hcv _) h1
    · rw [Function.update_noteq hi]
      exact ⟨hcv lv, F64.le_self_of_counterOK (hcv lv)⟩

theorem init_countersOK : MetricState.init.countersOK := by
  intro lv
  simp only [MetricState.init, F64.counterOK, Int.natAbs_zero]
  exact ⟨⟨le_rfl, by decide⟩, ⟨le_rfl, by decide⟩⟩

theorem consumeIter_counters (st : MetricState) (g : GetResult) (hok : st.countersOK)
    (hnn : ∀ s, fetched g = some s → s.countersNonneg = true) :
    ∃ st1, consumeIter st g = .ok st1 ∧ st1.countersOK ∧
      ∀ lv, (st.bytesCounter lv).le (st1.bytesCounter lv) = true ∧
        (st.messageCounter lv).le (st1.messageCounter lv) = true := by
  cases hf : fetched g with
  | none =>
    exact ⟨st, consumeIter_of_not_fetched st hf, hok, fun lv =>
      ⟨F64.le_self_of_counterOK (hok lv).1, F64.le_self_of_counterOK (hok lv).2⟩⟩
  | some s =>
    have h := hnn s hf
    simp only [NatsInfo.countersNonneg, Bool.and_eq_true] at h
    obtain ⟨⟨⟨h1, h2⟩, h3⟩, h4⟩ := h
    refine ⟨_, (consumeIter_of_fetched st hf).trans
      (reconcile_ok st s (F64.ltZero_of_nonneg h1) (F64.ltZero_of_nonneg h2)
        (F64.ltZero_of_nonneg h3) (F64.ltZero_of_nonneg h4)), ?_, ?_⟩
    · intro lv
      exact ⟨(update2_counter st.bytesCounter _ _ (fun l => (hok l).1) h1 h2 lv).1,
        (update2_counter st.messageCounter _ _ (fun l => (hok l).2) h3 h4 lv).1⟩
    · intro lv
      exact ⟨(update2_counter st.bytesCounter _ _ (fun l => (hok l).1) h1 h2 lv).2,
        (update2_counter st.messageCounter _ _ (fun l => (hok l).2) h3 h4 lv).2⟩

theorem consumeLoop_countersOK (gets : List GetResult) :
    ∀ st : MetricState, st.countersOK → allCountersNonneg gets = true →
      ∃ st1, consumeLoop st gets = .ok st1 ∧ st1.countersOK := by
  induction gets with
  | nil => intro st h _; exact ⟨st, rfl, h⟩
  | cons g gs ih =>
    intro st hok h
    obtain ⟨hg, hgs⟩ := allCountersNonneg_cons h
    obtain ⟨st1, h1, hok1, _⟩ := consumeIter_counters st g hok hg
    obtain ⟨st2, h2, hok2⟩ := ih st1 hok1 hgs
    exact ⟨st2, by rw [consumeLoop_cons_ok _ h1]; exact h2, hok2⟩

/-! ## Integer-valued snapshots are summed exactly -/

theorem F64.nonneg_nat (n : Nat) : (F64.nat n).nonneg = true := by
  simp only [F64.nat, F64.nonneg, decide_eq_true_eq]
  exact Int.ofNat_nonneg _

theorem NatsInfo.countersNonneg_of_nat {s : NatsInfo} (h : s.countersNat) :
    s.countersNonneg = true := by
  obtain ⟨h1, h2, h3, h4⟩ := h
  unfold F64.IsNat at h1 h2 h3 h4
  simp only [NatsInfo.countersNonneg, Bool.and_eq_true]
  refine ⟨⟨⟨?_, ?_⟩, ?_⟩, ?_⟩
  · rw [h1]; exact F64.nonneg_nat _
  · rw [h2]; exact F64.nonneg_nat _
  · rw [h3]; exact F64.nonneg_nat _
  · rw [h4]; exact F64.nonneg_nat _

theorem fetched_okGet (s : NatsInfo) : fetched (okGet s) = some s := by
  simp [fetched, okGet]

theorem sumOf_cons (f : NatsInfo → F64) (s : NatsInfo) (ss : List NatsInfo) :
    sumOf f (s :: ss) = (f s).toNat + sumOf f ss := by
  simp [sumOf]

theorem consumeLoop_nat (snaps : List NatsInfo) :
    ∀ (st : MetricState) (a b c d : Nat),
      st.bytesCounter "in" = F64.nat a → st.bytesCounter "out" = F64.nat b →
      st.messageCounter "in" = F64.nat c → st.messageCounter "out" = F64.nat d →
      (∀ s ∈ snaps, s.countersNat) →
      a + sumOf NatsInfo.BytesIn snaps ≤ 2 ^ 53 →
      b + sumOf NatsInfo.BytesOut snaps ≤ 2 ^ 53 →
      c + sumOf NatsInfo.MessagesIn snaps ≤ 2 ^ 53 →
      d + sumOf NatsInfo.MessagesOut snaps ≤ 2 ^ 53 →
      ∃ st1, consumeLoop st (snaps.map okGet) = .ok st1 ∧
        st1.bytesCounter "in" = F64.nat (a + sumOf NatsInfo.BytesIn snaps) ∧
        st1.bytesCounter "out" = F64.nat (b + sumOf NatsInfo.BytesOut snaps) ∧
        st1.messageCounter "in" = F64.nat (c + sumOf NatsInfo.MessagesIn snaps) ∧
        st1.messageCounter "out" = F64.nat (d + sumOf NatsInfo.MessagesOut snaps) := by
  induction snaps with
  | nil =>
    intro st a b c d ha hb hc hd _ _ _ _ _
    exact ⟨st, rfl, by simpa [sumOf] using ha, by simpa [sumOf] using hb,
      by simpa [sumOf] using hc, by simpa [sumOf] using hd⟩
  | cons s ss ih =>
    intro st a b c d ha hb hc hd hnat sa sb sc sd
    rw [sumOf_cons] at sa sb sc sd
    have hs := hnat s (List.mem_cons_self _ _)
    obtain ⟨st1, h1⟩ := reconcile_of_nonneg st s (NatsInfo.countersNonneg_of_nat hs)
    obtain ⟨f1, f2, f3, f4, _, _⟩ := reconcile_fields h1
    obtain ⟨n1, n2, n3, n4⟩ := hs
    unfold F64.IsNat at n1 n2 n3 n4
    rw [ha, n1, F64.add_nat (by omega)] at f1
    rw [hb, n2, F64.add_nat (by omega)] at f2
    rw [hc, n3, F64.add_nat (by omega)] at f3
    rw [hd, n4, F64.add_nat (by omega)] at f4
    obtain ⟨st2, h2, g1, g2, g3, g4⟩ := ih st1 _ _ _ _ f1 f2 f3 f4
      (fun t ht => hnat t (List.mem_cons_of_mem _ ht))
      (by omega) (by omega) (by omega) (by omega)
    refine ⟨st2, ?_, ?_, ?_, ?_, ?_⟩
    · rw [List.map_cons, consumeLoop_cons_ok _
        ((consumeIter_of_fetched st (fetched_okGet s)).trans h1)]
      exact h2
    · rw [g1, sumOf_cons, Nat.add_assoc]
    · rw [g2, sumOf_cons, Nat.add_assoc]
    · rw [g3, sumOf_cons, Nat.add_assoc]
    · rw [g4, sumOf_cons, Nat.add_assoc]

/-! ## Evaluation of float64 sums and runs of fetched snapshots -/

theorem roundMag_eval {n : Nat} (s : Nat) (h1 : 2 ^ (52 + s) ≤ n) (h2 : n < 2 ^ (53 + s))
    (hs : 0 < s) :
    roundMag n =
      if 2 * (n % 2 ^ s) < 2 ^ s then n / 2 ^ s * 2 ^ s
      else if 2 ^ s < 2 * (n % 2 ^ s) then (n / 2 ^ s + 1) * 2 ^ s
      else if n / 2 ^ s % 2 = 0 then n / 2 ^ s * 2 ^ s
      else (n / 2 ^ s + 1) * 2 ^ s := by
  unfold roundMag
  rw [dropBits_eq h1 h2 hs]

/-- Evaluation of a sum of two finite values whose exact sum is the non-negative `n`, of
`53 + s` bits. -/
theorem F64.add_fin_eval {a b : Int} (n s : Nat) (hn : a + b = (n : Int))
    (h1 : 2 ^ (52 + s) ≤ n) (h2 : n < 2 ^ (53 + s)) (hs : 0 < s)
    (hfin : n < 2 ^ 2097) :
    (F64.fin a).add (F64.fin b) =
      F64.fin ((if 2 * (n % 2 ^ s) < 2 ^ s then n / 2 ^ s * 2 ^ s
        else if 2 ^ s < 2 * (n % 2 ^ s) then (n / 2 ^ s + 1) * 2 ^ s
        else if n / 2 ^ s % 2 = 0 then n / 2 ^ s * 2 ^ s
        else (n / 2 ^ s + 1) * 2 ^ s : Nat) : Int) := by
  have hnn : ¬ ((n : Int) < 0) := by omega
  have hbound : roundMag n < 2 ^ 2098 := by
    have hq : n / 2 ^ s * 2 ^ s ≤ n := Nat.div_mul_le_self _ _
    have hs2 : 2 ^ s ≤ n := le_trans (Nat.pow_le_pow_right (by norm_num) (by omega)) h1
    have e : 2 ^ 2098 = 2 ^ 2097 + 2 ^ 2097 := by rw [← two_mul, ← pow_succ']
    have := dropBits_eq h1 h2 hs
    rcases roundMag_cases n with h | h <;> rw [h, this]
    · omega
    · rw [Nat.add_mul, Nat.one_mul]; omega
  simp only [F64.add, fround, hn, Int.natAbs_ofNat, hnn, if_false]
  rw [if_neg (by omega), roundMag_eval s h1 h2 hs]

theorem add_zero_nearTwo52 : (F64.fin 0).add nearTwo52 = nearTwo52 := by
  unfold nearTwo52 F64.dyadic
  rw [F64.add_fin_eval ((2 ^ 53 - 1) * 2 ^ 1073) 1073 (by norm_num) (by norm_num) (by norm_num)
    (by norm_num) (by norm_num)]
  norm_num

theorem add_nearTwo52_threeQuarters : nearTwo52.add threeQuarters = F64.nat (2 ^ 52) := by
  unfold nearTwo52 threeQuarters F64.dyadic F64.nat
  rw [F64.add_fin_eval (2 ^ 1126 + 2 ^ 1072) 1074 (by norm_num) (by norm_num) (by norm_num)
    (by norm_num) (by norm_num)]
  norm_num

theorem add_two52_oneHalf : (F64.nat (2 ^ 52)).add oneHalf = F64.nat (2 ^ 52) := by
  unfold oneHalf F64.dyadic F64.nat
  rw [F64.add_fin_eval (2 ^ 1126 + 2 ^ 1073) 1074 (by norm_num) (by norm_num) (by norm_num)
    (by norm_num) (by norm_num)]
  norm_num

theorem add_zero_oneHalf : (F64.fin 0).add oneHalf = oneHalf := by
  unfold oneHalf F64.dyadic
  rw [F64.add_fin_eval (2 ^ 1073) 1021 (by norm_num) (by norm_num) (by norm_num)
    (by norm_num) (by norm_num)]
  norm_num

theorem add_oneHalf_threeQuarters : oneHalf.add threeQuarters = fiveQuarters := by
  unfold oneHalf threeQuarters fiveQuarters F64.dyadic
  rw [F64.add_fin_eval (5 * 2 ^ 1072) 1022 (by norm_num) (by norm_num) (by norm_num)
    (by norm_num) (by norm_num)]
  norm_num

theorem add_fiveQuarters_nearTwo52 : fiveQuarters.add nearTwo52 = F64.nat (2 ^ 52 + 1) := by
  unfold fiveQuarters nearTwo52 F64.dyadic F64.nat
  rw [F64.add_fin_eval (2 ^ 1126 + 3 * 2 ^ 1072) 1074 (by norm_num) (by norm_num) (by norm_num)
    (by norm_num) (by norm_num)]
  norm_num

/-- A run of fetched snapshots with non-negative counter fields completes, and each
counter holds the float64 sum of its field accumulated in the order of the snapshots. -/
theorem consumeLoop_foldl (snaps : List NatsInfo) :
    ∀ st : MetricState, (∀ s ∈ snaps, s.countersNonneg = true) →
      ∃ st1, consumeLoop st (snaps.map okGet) = .ok st1 ∧
        st1.bytesCounter "in" =
          (snaps.map NatsInfo.BytesIn).foldl F64.add (st.bytesCounter "in") ∧
        st1.bytesCounter "out" =
          (snaps.map NatsInfo.BytesOut).foldl F64.add (st.bytesCounter "out") ∧
        st1.messageCounter "in" =
          (snaps.map NatsInfo.MessagesIn).foldl F64.add (st.messageCounter "in") ∧
        st1.messageCounter "out" =
          (snaps.map NatsInfo.MessagesOut).foldl F64.add (st.messageCounter "out") := by
  induction snaps with
  | nil => intro st _; exact ⟨st, rfl, rfl, rfl, rfl, rfl⟩
  | cons s ss ih =>
    intro st h
    obtain ⟨st1, h1⟩ := reconcile_of_nonneg st s (h s (List.mem_cons_self _ _))
    obtain ⟨f1, f2, f3, f4, _, _⟩ := reconcile_fields h1
    obtain ⟨st2, h2, g1, g2, g3, g4⟩ := ih st1 (fun t ht => h t (List.mem_cons_of_mem _ ht))
    refine ⟨st2, ?_, ?_, ?_, ?_, ?_⟩
    · rw [List.map_cons, consumeLoop_cons_ok _
        ((consumeIter_of_fetched st (fetched_okGet s)).trans h1)]
      exact h2
    · rw [g1, f1]; rfl
    · rw [g2, f2]; rfl
    · rw [g3, f3]; rfl
    · rw [g4, f4]; rfl

theorem sumOf_perm (f : NatsInfo → F64) {l1 l2 : List NatsInfo} (h : l1.Perm l2) :
    sumOf f l1 = sumOf f l2 :=
  (h.map _).sum_eq

theorem wrapInt64_of_range {x : Int} (h1 : -(2 ^ 63) ≤ x) (h2 : x < 2 ^ 63) :
    wrapInt64 x = x := by
  unfold wrapInt64
  omega

/-! ## The claims -/

/-- C1: for every metric state and every snapshot, a poll cycle whose fetch succeeded
completes exactly when no counter field of the snapshot is negative, as the data model
requires, and every completed cycle leaves each of the four counters at its old value
plus (float64 sum) the snapshot field, and both gauges at the snapshot values, whatever
they held before. -/
theorem consume_cycle_effect (st : MetricState) (g : GetResult) (s : NatsInfo)
    (hg : fetched g = some s) :
    ((∃ st1, consumeIter st g = .ok st1) ↔
      (s.BytesIn.ltZero = false ∧ s.BytesOut.ltZero = false ∧
        s.MessagesIn.ltZero = false ∧ s.MessagesOut.ltZero = false)) ∧
    ∀ st1, consumeIter st g = .ok st1 →
      st1.bytesCounter "in" = (st.bytesCounter "in").add s.BytesIn ∧
      st1.bytesCounter "out" = (st.bytesCounter "out").add s.BytesOut ∧
      st1.messageCounter "in" = (st.messageCounter "in").add s.MessagesIn ∧
      st1.messageCounter "out" = (st.messageCounter "out").add s.MessagesOut ∧
      st1.connections = s.Connections ∧
      st1.slowConsumers = s.SlowConsumers := by
  rw [consumeIter_of_fetched st hg]
  exact ⟨reconcile_ok_iff st s, fun st1 h => reconcile_fields h⟩

/-- Witness of C1: the scenario snapshot reconciled into the initial state. -/
theorem consume_cycle_effect_witness :
    ∃ st1, consumeIter MetricState.init (okGet scenario) = .ok st1 ∧
      st1.bytesCounter "in" = (MetricState.init.bytesCounter "in").add scenario.BytesIn ∧
      st1.bytesCounter "out" = (MetricState.init.bytesCounter "out").add scenario.BytesOut ∧
      st1.messageCounter "in" =
        (MetricState.init.messageCounter "in").add scenario.MessagesIn ∧
      st1.messageCounter "out" =
        (MetricState.init.messageCounter "out").add scenario.MessagesOut ∧
      st1.connections = scenario.Connections ∧
      st1.slowConsumers = scenario.SlowConsumers := by
  have h := consume_cycle_effect MetricState.init (okGet scenario) scenario (by rfl)
  obtain ⟨st1, h1⟩ := h.1.2 (by decide)
  exact ⟨st1, h1, h.2 st1 h1⟩

/-- C3: for every sequence of poll cycles (fetched snapshots and failed fetches mixed in
any way) with at least one fetched snapshot, the run completes whenever the fetched
snapshots have non-negative counter fields, and after every completed run both gauges
equal the fields of the last fetched snapshot. -/
theorem gauges_hold_last_fetched (st : MetricState) (gets : List GetResult) (s : NatsInfo)
    (hs : lastFetched gets = some s) :
    (allCountersNonneg gets = true → ∃ st1, consumeLoop st gets = .ok st1) ∧
    ∀ st1, consumeLoop st gets = .ok st1 →
      st1.connections = s.Connections ∧ st1.slowConsumers = s.SlowConsumers := by
  refine ⟨consumeLoop_of_nonneg gets st, fun st1 h => ?_⟩
  have := consumeLoop_gauges gets st st1 h
  rw [hs] at this
  exact this

/-- Witness of C3: failures before, between and after two fetched snapshots. -/
theorem gauges_hold_last_fetched_witness :
    ∃ st1,
      consumeLoop MetricState.init
        [.error "timeout", okGet scenario, .ok unavailable, okGet negativeGauges,
          .ok malformed, .error "refused"] = .ok st1 ∧
      st1.connections = F64.dyadic (-3) 0 ∧ st1.slowConsumers = F64.dyadic (-1) 0 := by
  have h := gauges_hold_last_fetched MetricState.init
    [.error "timeout", okGet scenario, .ok unavailable, okGet negativeGauges,
      .ok malformed, .error "refused"] negativeGauges (by rfl)
  obtain ⟨st1, h1⟩ := h.1 (by decide)
  exact ⟨st1, h1, h.2 st1 h1⟩

/-- C4: a pass of `consume` whose fetch fails (the GET returns an error, the status is
not 200, or the body does not decode) returns the metric state it started from. -/
theorem failed_fetch_keeps_state (st : MetricState) :
    (∀ err, consumeIter st (.error err) = .ok st) ∧
    (∀ resp : Response, resp.StatusCode ≠ 200 → consumeIter st (.ok resp) = .ok st) ∧
    (∀ (resp : Response) (err : String), resp.decoded = .error err →
      consumeIter st (.ok resp) = .ok st) := by
  refine ⟨fun _ => rfl, fun resp h => ?_, fun resp err h => ?_⟩
  · simp [consumeIter, h]
  · simp only [consumeIter, h]
    split_ifs <;> rfl

/-- Witness of C4: a status 503 and an undecodable body, on the initial state. -/
theorem failed_fetch_keeps_state_witness :
    consumeIter MetricState.init (.ok unavailable) = .ok MetricState.init ∧
    consumeIter MetricState.init (.ok malformed) = .ok MetricState.init :=
  ⟨(failed_fetch_keeps_state MetricState.init).2.1 unavailable (by decide),
   (failed_fetch_keeps_state MetricState.init).2.2 malformed "invalid character" rfl⟩

/-- C5, as stated, fails: with `in_bytes` equal to -1 the first `Add` panics, so the
step does not complete and nothing is added. -/
theorem negative_counter_field_panics :
    (bytesInOnly (F64.dyadic (-1) 0)).BytesIn.ltZero = true ∧
    reconcile MetricState.init (bytesInOnly (F64.dyadic (-1) 0)) = .error counterPanic ∧
    ¬ ∃ st1, reconcile MetricState.init (bytesInOnly (F64.dyadic (-1) 0)) = .ok st1 := by
  have hlt : (bytesInOnly (F64.dyadic (-1) 0)).BytesIn.ltZero = true := by decide
  have h := reconcile_panic MetricState.init (bytesInOnly (F64.dyadic (-1) 0)) (Or.inl hlt)
  refine ⟨hlt, h, ?_⟩
  rintro ⟨st1, h1⟩
  rw [h] at h1
  cases h1

/-- C5, amended: `reconcile` has no check of its own.  When none of the four counter
fields is negative it completes, adds each field to its counter and assigns both gauges
as they are, negative values included; when one of them is negative `Counter.Add`
panics and the step does not complete. -/
theorem reconcile_guarded_by_counter (st : MetricState) (s : NatsInfo) :
    (s.BytesIn.ltZero = false → s.BytesOut.ltZero = false →
      s.MessagesIn.ltZero = false → s.MessagesOut.ltZero = false →
      ∃ st1, reconcile st s = .ok st1 ∧
        st1.bytesCounter "in" = (st.bytesCounter "in").add s.BytesIn ∧
        st1.bytesCounter "out" = (st.bytesCounter "out").add s.BytesOut ∧
        st1.messageCounter "in" = (st.messageCounter "in").add s.MessagesIn ∧
        st1.messageCounter "out" = (st.messageCounter "out").add s.MessagesOut ∧
        st1.connections = s.Connections ∧
        st1.slowConsumers = s.SlowConsumers) ∧
    (s.BytesIn.ltZero = true ∨ s.BytesOut.ltZero = true ∨
      s.MessagesIn.ltZero = true ∨ s.MessagesOut.ltZero = true →
      reconcile st s = .error counterPanic) := by
  refine ⟨fun h1 h2 h3 h4 => ?_, reconcile_panic st s⟩
  have h := reconcile_ok st s h1 h2 h3 h4
  exact ⟨_, h, reconcile_fields h⟩

/-- Witness of C5 amended: negative gauge values are stored as they are. -/
theorem reconcile_guarded_by_counter_witness :
    ∃ st1, reconcile MetricState.init negativeGauges = .ok st1 ∧
      st1.connections = F64.dyadic (-3) 0 ∧ st1.slowConsumers = F64.dyadic (-1) 0 ∧
      st1.connections.ltZero = true ∧ st1.slowConsumers.ltZero = true := by
  obtain ⟨st1, h, _, _, _, _, hc, hs⟩ :=
    (reconcile_guarded_by_counter MetricState.init negativeGauges).1
      (by decide) (by decide) (by decide) (by decide)
  refine ⟨st1, h, hc, hs, ?_, ?_⟩
  · rw [hc]; decide
  · rw [hs]; decide

/-- C6: from the initial state, for every sequence of poll cycles whose fetched
snapshots have non-negative counter fields, every cycle completes and leaves each of
the four counters greater than or equal to its value before that cycle. -/
theorem counters_never_decrease (pre : List GetResult) (g : GetResult)
    (h : allCountersNonneg (pre ++ [g]) = true) :
    ∃ st st1, consumeLoop MetricState.init pre = .ok st ∧ consumeIter st g = .ok st1 ∧
      (st.bytesCounter "in").le (st1.bytesCounter "in") = true ∧
      (st.bytesCounter "out").le (st1.bytesCounter "out") = true ∧
      (st.messageCounter "in").le (st1.messageCounter "in") = true ∧
      (st.messageCounter "out").le (st1.messageCounter "out") = true := by
  have hsplit : allCountersNonneg pre = true ∧ allCountersNonneg [g] = true := by
    simpa [allCountersNonneg, List.all_append] using h
  obtain ⟨st, hst, hok⟩ := consumeLoop_countersOK pre MetricState.init init_countersOK hsplit.1
  obtain ⟨st1, h1, _, hle⟩ :=
    consumeIter_counters st g hok (allCountersNonneg_cons hsplit.2).1
  exact ⟨st, st1, hst, h1, (hle "in").1, (hle "out").1, (hle "in").2, (hle "out").2⟩

/-- Witness of C6: the third cycle of a run with one failed cycle. -/
theorem counters_never_decrease_witness :
    ∃ st st1, consumeLoop MetricState.init [okGet scenario, .ok unavailable] = .ok st ∧
      consumeIter st (okGet scenario) = .ok st1 ∧
      (st.bytesCounter "in").le (st1.bytesCounter "in") = true ∧
      (st.bytesCounter "out").le (st1.bytesCounter "out") = true ∧
      (st.messageCounter "in").le (st1.messageCounter "in") = true ∧
      (st.messageCounter "out").le (st1.messageCounter "out") = true :=
  counters_never_decrease [okGet scenario, .ok unavailable] (okGet scenario) (by decide)

/-- C2, as stated, fails: the three `in_bytes` values 4503599627370495.5, 0.75 and 0.5
reconciled from the initial state leave the counter at 2^52, and in the opposite order at
2^52 + 1; neither is their sum 2^52 + 3/4. -/
theorem counter_sum_depends_on_order :
    ∃ st1 st2,
      consumeLoop MetricState.init
        [okGet (bytesInOnly nearTwo52), okGet (bytesInOnly threeQuarters),
          okGet (bytesInOnly oneHalf)] = .ok st1 ∧
      consumeLoop MetricState.init
        [okGet (bytesInOnly oneHalf), okGet (bytesInOnly threeQuarters),
          okGet (bytesInOnly nearTwo52)] = .ok st2 ∧
      st1.bytesCounter "in" = F64.nat (2 ^ 52) ∧
      st2.bytesCounter "in" = F64.nat (2 ^ 52 + 1) ∧
      st1.bytesCounter "in" ≠ st2.bytesCounter "in" := by
  obtain ⟨st1, h1, f1, _⟩ := consumeLoop_foldl
    [bytesInOnly nearTwo52, bytesInOnly threeQuarters, bytesInOnly oneHalf]
    MetricState.init (by decide)
  obtain ⟨st2, h2, f2, _⟩ := consumeLoop_foldl
    [bytesInOnly oneHalf, bytesInOnly threeQuarters, bytesInOnly nearTwo52]
    MetricState.init (by decide)
  have e1 : st1.bytesCounter "in" = F64.nat (2 ^ 52) := by
    rw [f1]
    simp only [List.map, List.foldl, bytesInOnly, MetricState.init]
    rw [add_zero_nearTwo52, add_nearTwo52_threeQuarters, add_two52_oneHalf]
  have e2 : st2.bytesCounter "in" = F64.nat (2 ^ 52 + 1) := by
    rw [f2]
    simp only [List.map, List.foldl, bytesInOnly, MetricState.init]
    rw [add_zero_oneHalf, add_oneHalf_threeQuarters, add_fiveQuarters_nearTwo52]
  refine ⟨st1, st2, h1, h2, e1, e2, ?_⟩
  rw [e1, e2]
  decide

/-- C2, amended: from the initial state, N fetched snapshots with non-negative counter
fields are all reconciled and each counter holds the float64 sum of its field accumulated
in the order of the snapshots; when the counter fields are non-negative integers and
the total of each field is at most 2^53, each counter is exactly that total, whatever
the order of the snapshots; the scenario snapshot reconciled twice gives counters 200,
100, 20, 10 and gauges 3 and 0. -/
theorem counters_hold_field_sums :
    (∀ snaps : List NatsInfo, (∀ s ∈ snaps, s.countersNonneg = true) →
      ∃ st, consumeLoop MetricState.init (snaps.map okGet) = .ok st ∧
        st.bytesCounter "in" = (snaps.map NatsInfo.BytesIn).foldl F64.add (.fin 0) ∧
        st.bytesCounter "out" = (snaps.map NatsInfo.BytesOut).foldl F64.add (.fin 0) ∧
        st.messageCounter "in" = (snaps.map NatsInfo.MessagesIn).foldl F64.add (.fin 0) ∧
        st.messageCounter "out" =
          (snaps.map NatsInfo.MessagesOut).foldl F64.add (.fin 0)) ∧
    (∀ snaps reordered : List NatsInfo, reordered.Perm snaps →
      (∀ s ∈ snaps, s.countersNat) →
      sumOf NatsInfo.BytesIn snaps ≤ 2 ^ 53 → sumOf NatsInfo.BytesOut snaps ≤ 2 ^ 53 →
      sumOf NatsInfo.MessagesIn snaps ≤ 2 ^ 53 →
      sumOf NatsInfo.MessagesOut snaps ≤ 2 ^ 53 →
      ∃ st st2, consumeLoop MetricState.init (snaps.map okGet) = .ok st ∧
        consumeLoop MetricState.init (reordered.map okGet) = .ok st2 ∧
        st.bytesCounter "in" = F64.nat (sumOf NatsInfo.BytesIn snaps) ∧
        st.bytesCounter "out" = F64.nat (sumOf NatsInfo.BytesOut snaps) ∧
        st.messageCounter "in" = F64.nat (sumOf NatsInfo.MessagesIn snaps) ∧
        st.messageCounter "out" = F64.nat (sumOf NatsInfo.MessagesOut snaps) ∧
        st2.bytesCounter "in" = st.bytesCounter "in" ∧
        st2.bytesCounter "out" = st.bytesCounter "out" ∧
        st2.messageCounter "in" = st.messageCounter "in" ∧
        st2.messageCounter "out" = st.messageCounter "out") ∧
    (∃ st, consumeLoop MetricState.init [okGet scenario, okGet scenario] = .ok st ∧
      st.bytesCounter "in" = F64.nat 200 ∧ st.bytesCounter "out" = F64.nat 100 ∧
      st.messageCounter "in" = F64.nat 20 ∧ st.messageCounter "out" = F64.nat 10 ∧
      st.connections = F64.nat 3 ∧ st.slowConsumers = F64.nat 0) := by
  have hz : ∀ lv, MetricState.init.bytesCounter lv = F64.nat 0 ∧
      MetricState.init.messageCounter lv = F64.nat 0 := by
    intro lv
    simp [MetricState.init, F64.nat]
  have key : ∀ snaps : List NatsInfo, (∀ s ∈ snaps, s.countersNat) →
      sumOf NatsInfo.BytesIn snaps ≤ 2 ^ 53 → sumOf NatsInfo.BytesOut snaps ≤ 2 ^ 53 →
      sumOf NatsInfo.MessagesIn snaps ≤ 2 ^ 53 →
      sumOf NatsInfo.MessagesOut snaps ≤ 2 ^ 53 →
      ∃ st, consumeLoop MetricState.init (snaps.map okGet) = .ok st ∧
        st.bytesCounter "in" = F64.nat (sumOf NatsInfo.BytesIn snaps) ∧
        st.bytesCounter "out" = F64.nat (sumOf NatsInfo.BytesOut snaps) ∧
        st.messageCounter "in" = F64.nat (sumOf NatsInfo.MessagesIn snaps) ∧
        st.messageCounter "out" = F64.nat (sumOf NatsInfo.MessagesOut snaps) := by
    intro snaps hnat s1 s2 s3 s4
    obtain ⟨st, h, g1, g2, g3, g4⟩ := consumeLoop_nat snaps MetricState.init 0 0 0 0
      (hz "in").1 (hz "out").1 (hz "in").2 (hz "out").2 hnat
      (by omega) (by omega) (by omega) (by omega)
    rw [Nat.zero_add] at g1 g2 g3 g4
    exact ⟨st, h, g1, g2, g3, g4⟩
  refine ⟨fun snaps h => ?_, ?_, ?_⟩
  · exact consumeLoop_foldl snaps MetricState.init h
  · intro snaps reordered hperm hnat s1 s2 s3 s4
    obtain ⟨st, h, g1, g2, g3, g4⟩ := key snaps hnat s1 s2 s3 s4
    have p1 := sumOf_perm NatsInfo.BytesIn hperm
    have p2 := sumOf_perm NatsInfo.BytesOut hperm
    have p3 := sumOf_perm NatsInfo.MessagesIn hperm
    have p4 := sumOf_perm NatsInfo.MessagesOut hperm
    obtain ⟨st2, h', k1, k2, k3, k4⟩ := key reordered
      (fun t ht => hnat t (hperm.mem_iff.1 ht))
      (by omega) (by omega) (by omega) (by omega)
    refine ⟨st, st2, h, h', g1, g2, g3, g4, ?_, ?_, ?_, ?_⟩
    · rw [k1, g1, p1]
    · rw [k2, g2, p2]
    · rw [k3, g3, p3]
    · rw [k4, g4, p4]
  · obtain ⟨st, h, g1, g2, g3, g4⟩ := key [scenario, scenario] (by decide) (by decide)
      (by decide) (by decide) (by decide)
    have h' : consumeLoop MetricState.init [okGet scenario, okGet scenario] = .ok st := h
    have hg := consumeLoop_gauges _ _ _ h'
    have hl : lastFetched [okGet scenario, okGet scenario] = some scenario := by rfl
    rw [hl] at hg
    refine ⟨st, h', ?_, ?_, ?_, ?_, hg.1, hg.2⟩
    · rw [g1]; rfl
    · rw [g2]; rfl
    · rw [g3]; rfl
    · rw [g4]; rfl

/-- Witness of C2 amended: two integer-valued snapshots in both orders. -/
theorem counters_hold_field_sums_witness :
    ∃ st st2,
      consumeLoop MetricState.init ([scenario, negativeGauges].map okGet) = .ok st ∧
      consumeLoop MetricState.init ([negativeGauges, scenario].map okGet) = .ok st2 ∧
      st.bytesCounter "in" = F64.nat 101 ∧ st2.bytesCounter "in" = F64.nat 101 := by
  obtain ⟨st, st2, h, h2, g1, _, _, _, k1, _⟩ :=
    counters_hold_field_sums.2.1 [scenario, negativeGauges] [negativeGauges, scenario]
      (List.Perm.swap _ _ []) (by decide) (by decide) (by decide) (by decide) (by decide)
  have e : sumOf NatsInfo.BytesIn [scenario, negativeGauges] = 101 := by decide
  rw [e] at g1
  exact ⟨st, st2, h, h2, g1, k1.trans g1⟩

/-- C7: with a poll interval of 0 or less the only action of `main` is the fatal log
line, so no GET is issued, nothing is registered, `consume` is not started and the
endpoint is not bound; with an interval of 1 or more the check passes and `main` goes
on to the GET of the probe. -/
theorem nonpositive_interval_is_fatal (flags : Flags) (probe : GetResult)
    (serveErr : Option String) :
    (flags.consumeTime ≤ 0 →
      main flags probe serveErr = [.logFatal "consume time should be >0"]) ∧
    (1 ≤ flags.consumeTime →
      ∃ rest, main flags probe serveErr = .httpGet (varzURL flags.natsaddr) :: rest) := by
  constructor
  · intro h
    have : flags.consumeTime < 1 := by omega
    simp [main, this]
  · intro h
    have : ¬ flags.consumeTime < 1 := by omega
    simp [main, this]

/-- Witness of C7: intervals 0 and -5 are rejected, interval 10 passes the check. -/
theorem nonpositive_interval_is_fatal_witness :
    main { defaultFlags with consumeTime := 0 } (okGet scenario) none =
      [.logFatal "consume time should be >0"] ∧
    main { defaultFlags with consumeTime := -5 } (okGet scenario) none =
      [.logFatal "consume time should be >0"] ∧
    ∃ rest, main defaultFlags (okGet scenario) none = .httpGet "http://:8043/varz" :: rest :=
  ⟨(nonpositive_interval_is_fatal _ _ _).1 (by decide),
   (nonpositive_interval_is_fatal _ _ _).1 (by decide),
   (nonpositive_interval_is_fatal defaultFlags _ _).2 (by decide)⟩

/-- C8: with a valid poll interval, a probe that returns an error or a status other
than 200 makes `main` end with a fatal log line right after the GET; `consume` is
started, and `ListenAndServe` called, if and only if the probe returns status 200. -/
theorem probe_gates_startup (flags : Flags) (probe : GetResult) (serveErr : Option String)
    (hvalid : 1 ≤ flags.consumeTime) :
    (∀ err, probe = .error err →
      main flags probe serveErr = [.httpGet (varzURL flags.natsaddr), .logFatal err]) ∧
    (∀ resp : Response, probe = .ok resp → resp.StatusCode ≠ 200 →
      main flags probe serveErr =
        [.httpGet (varzURL flags.natsaddr),
          .logFatal ("expected statuscode 200 got " ++ toString resp.StatusCode)]) ∧
    (Action.goConsume ∈ main flags probe serveErr ↔
      ∃ resp : Response, probe = .ok resp ∧ resp.StatusCode = 200) ∧
    (Action.listenAndServe flags.addr ∈ main flags probe serveErr ↔
      ∃ resp : Response, probe = .ok resp ∧ resp.StatusCode = 200) := by
  have hv : ¬ flags.consumeTime < 1 := by omega
  refine ⟨?_, ?_, ?_, ?_⟩
  · intro err h
    subst h
    simp [main, hv]
  · intro resp h hne
    subst h
    simp [main, hv, hne]
  · cases probe with
    | error err => simp [main, hv]
    | ok resp =>
      by_cases hs : resp.StatusCode = 200
      · cases serveErr <;> simp [main, hv, hs]
      · simp [main, hv, hs]
  · cases probe with
    | error err => simp [main, hv]
    | ok resp =>
      by_cases hs : resp.StatusCode = 200
      · cases serveErr <;> simp [main, hv, hs]
      · simp [main, hv, hs]

/-- Witness of C8: a probe answered with status 503. -/
theorem probe_gates_startup_witness :
    main defaultFlags (.ok unavailable) none =
      [.httpGet "http://:8043/varz", .logFatal "expected statuscode 200 got 503"] ∧
    Action.goConsume ∉ main defaultFlags (.ok unavailable) none ∧
    Action.listenAndServe ":9104" ∉ main defaultFlags (.ok unavailable) none := by
  have h := probe_gates_startup defaultFlags (.ok unavailable) none (by decide)
  refine ⟨h.2.1 unavailable rfl (by decide), ?_, ?_⟩
  · rw [h.2.2.1]
    rintro ⟨resp, h1, h2⟩
    cases h1
    exact absurd h2 (by decide)
  · have h4 := h.2.2.2
    intro hmem
    obtain ⟨resp, h1, h2⟩ := h4.1 hmem
    cases h1
    exact absurd h2 (by decide)

/-- C9, as stated, fails: a fetched snapshot with `in_bytes` equal to -1 takes the loop
from polling to a crash, not back to idle, and nothing follows the crash. -/
theorem negative_snapshot_stops_scheduler :
    fetched (okGet (bytesInOnly (F64.dyadic (-1) 0))) = some (bytesInOnly (F64.dyadic (-1) 0)) ∧
    (Sched.polling MetricState.init).step (.got (okGet (bytesInOnly (F64.dyadic (-1) 0)))) =
      some (.crashed counterPanic) ∧
    (¬ ∃ st1, (Sched.polling MetricState.init).step
      (.got (okGet (bytesInOnly (F64.dyadic (-1) 0)))) = some (.idle st1)) ∧
    ∀ e, (Sched.crashed counterPanic).step e = none := by
  have hp : reconcile MetricState.init (bytesInOnly (F64.dyadic (-1) 0)) =
      .error counterPanic :=
    reconcile_panic _ _ (Or.inl (by decide))
  have hstep : (Sched.polling MetricState.init).step
      (.got (okGet (bytesInOnly (F64.dyadic (-1) 0)))) = some (.crashed counterPanic) := by
    simp [Sched.step, consumeIter_of_fetched _ (fetched_okGet _), hp]
  refine ⟨fetched_okGet _, hstep, ?_, fun e => by cases e <;> rfl⟩
  rintro ⟨st1, h⟩
  rw [hstep] at h
  cases h

/-- C9, amended: idle and polling are not terminal as long as no fetched snapshot has a
negative counter field.  From idle the end of the sleep leads to polling; from polling a
failed fetch (GET error, status other than 200, undecodable body) leads back to idle
with the state unchanged, and a fetched snapshot with non-negative counter fields leads
back to idle, from where the next sleep leads to polling again; a fetched snapshot with
a negative counter field ends the loop with the panic of `Counter.Add`. -/
theorem scheduler_returns_to_idle (st : MetricState) (g : GetResult) :
    (Sched.idle st).step .tick = some (.polling st) ∧
    (fetched g = none → (Sched.polling st).step (.got g) = some (.idle st)) ∧
    (∀ s, fetched g = some s → s.countersNonneg = true →
      ∃ st1, (Sched.polling st).step (.got g) = some (.idle st1) ∧
        (Sched.idle st1).step .tick = some (.polling st1)) ∧
    (∀ s, fetched g = some s →
      (s.BytesIn.ltZero = true ∨ s.BytesOut.ltZero = true ∨
        s.MessagesIn.ltZero = true ∨ s.MessagesOut.ltZero = true) →
      (Sched.polling st).step (.got g) = some (.crashed counterPanic)) := by
  refine ⟨rfl, fun h => ?_, fun s hs hnn => ?_, fun s hs hneg => ?_⟩
  · simp [Sched.step, consumeIter_of_not_fetched st h]
  · obtain ⟨st1, h1⟩ := reconcile_of_nonneg st s hnn
    refine ⟨st1, ?_, rfl⟩
    simp [Sched.step, consumeIter_of_fetched st hs, h1]
  · simp [Sched.step, consumeIter_of_fetched st hs, reconcile_panic st s hneg]

/-- Witness of C9 amended: a status 503 and then the scenario snapshot, from the initial
state. -/
theorem scheduler_returns_to_idle_witness :
    (Sched.polling MetricState.init).step (.got (.ok unavailable)) =
      some (.idle MetricState.init) ∧
    ∃ st1, (Sched.polling MetricState.init).step (.got (okGet scenario)) = some (.idle st1) ∧
      (Sched.idle st1).step .tick = some (.polling st1) :=
  ⟨(scheduler_returns_to_idle MetricState.init (.ok unavailable)).2.1 (by rfl),
   (scheduler_returns_to_idle MetricState.init (okGet scenario)).2.2.1 scenario (by rfl)
     (by decide)⟩

/-- C10, as stated, fails: the interval 9223372037 passes the startup check, and the
sleep and the timeout are both -9223372036709551616 nanoseconds, which is neither
9223372037 seconds nor positive. -/
theorem interval_overflows_duration :
    ¬ ((9223372037 : Int) < 1) ∧
    sleepDuration 9223372037 = clientTimeout 9223372037 ∧
    sleepDuration 9223372037 = -9223372036709551616 ∧
    sleepDuration 9223372037 ≠ 9223372037 * 1000000000 ∧
    ¬ (0 < sleepDuration 9223372037) := by
  decide

/-- C10, amended: the sleep and the timeout are the same value for every interval; for
every interval n with 1 ≤ n ≤ 9223372036 that value is exactly n * 10^9 nanoseconds
and is positive. -/
theorem interval_duration (n : Int) :
    sleepDuration n = clientTimeout n ∧
    (1 ≤ n → n ≤ 9223372036 →
      sleepDuration n = n * 1000000000 ∧ clientTimeout n = n * 1000000000 ∧
        0 < sleepDuration n) := by
  refine ⟨rfl, fun h1 h2 => ?_⟩
  have e : sleepDuration n = n * 1000000000 := by
    unfold sleepDuration Duration.mul toDuration Second
    have e0 : wrapInt64 n = n := wrapInt64_of_range (by omega) (by omega)
    rw [e0, wrapInt64_of_range (by omega) (by omega)]
    ring
  have e2 : clientTimeout n = n * 1000000000 := e
  exact ⟨e, e2, by rw [e]; omega⟩

/-- Witness of C10 amended: the default interval of 10 seconds and the largest interval
without overflow. -/
theorem interval_duration_witness :
    sleepDuration 10 = 10000000000 ∧ clientTimeout 10 = 10000000000 ∧
    sleepDuration 9223372036 = 9223372036000000000 ∧ 0 < sleepDuration 9223372036 := by
  obtain ⟨a, b, _⟩ := (interval_duration 10).2 (by decide) (by decide)
  obtain ⟨c, _, d⟩ := (interval_duration 9223372036).2 (by decide) (by decide)
  exact ⟨a, b, c, d⟩

end NatsPrometheus
